import Mathlib

/-!
# Verification of the QReel candidate-ranking core

Shallow embedding of `src/backend/quantum_search/classical.py` and
`src/backend/quantum_search/grover.py`.

Modelling conventions:
* Python floats are modelled as exact rationals (`ℚ`).
* A Python `dict` candidate is the `Movie` record; the `.get(..., default)`
  accesses with defaults `''` / `0` become total fields holding the default.
* `classical_search` returns `Option Int` (`none` models Python `None`).
* `quantum_search` returns `Option (Option Int)`: the outer `none` models an
  uncaught exception escaping the call, `some r` a normal return of `r`.
* The process-wide random state consumed by `random.choices`, `random.random`
  and `random.choice` is abstracted into a `RandSource` record; theorems
  quantify over it to express "for every choice of the random source".
-/

/-! ## String helpers: Python `str.lower`, `str.split()` and `in` -/

/-- Python `s.lower()` (ASCII case folding, as used on these inputs). -/
def toLowerStr (s : String) : String := String.mk (s.data.map Char.toLower)

/-- Helper for `splitWs`: accumulate the current word (reversed) while
scanning, emitting a word at each whitespace run boundary. -/
def splitWsAux : List Char → List Char → List String
  | [], acc => if acc.isEmpty then [] else [String.mk acc.reverse]
  | c :: cs, acc =>
    if c.isWhitespace then
      if acc.isEmpty then splitWsAux cs []
      else String.mk acc.reverse :: splitWsAux cs []
    else splitWsAux cs (c :: acc)

/-- Python `s.split()`: split on whitespace runs, dropping empty tokens. -/
def splitWs (s : String) : List String := splitWsAux s.data []

/-- Test whether `pat` is a leading segment of `s`. -/
def leadMatch : List Char → List Char → Bool
  | [], _ => true
  | _ :: _, [] => false
  | a :: as, b :: bs => a == b && leadMatch as bs

/-- Test whether `pat` occurs contiguously somewhere in `s`. -/
def hasSub : List Char → List Char → Bool
  | pat, [] => leadMatch pat []
  | pat, s@(_ :: rest) => leadMatch pat s || hasSub pat rest

/-- Python `pat in s` on strings: substring containment. -/
def substrB (pat s : String) : Bool := hasSub pat.data s.data

/-! ## Data model -/

/-- A candidate movie record as consumed by both rankers: `id`,
`title`, `overview` (default `""`), `popularity` (default `0`). -/
structure Movie where
  id : Int
  title : String
  overview : String
  popularity : ℚ
deriving DecidableEq, Repr

/-- Default movie used only to make list indexing total. -/
def dMovie : Movie := ⟨0, "", "", 0⟩

/-! ## The two scorers (they are NOT the same function in the source) -/

/-- Per-movie score of `quantum_search` (grover.py lines 18-30): the query is
lower-cased and split into a *list* of terms (duplicates kept); a term counts
toward the title (weight 3) or overview (weight 1) score when it occurs as a
*substring* of the lower-cased field; plus `popularity / 20`. -/
def scoreQ (query : String) (m : Movie) : ℚ :=
  let title := toLowerStr m.title
  let overview := toLowerStr m.overview
  let queryTerms := splitWs (toLowerStr query)
  let titleScore : ℚ := 3 * ((queryTerms.filter (fun t => substrB t title)).length : ℚ)
  let overviewScore : ℚ := ((queryTerms.filter (fun t => substrB t overview)).length : ℚ)
  titleScore + overviewScore + m.popularity / 20

/-- Per-movie score of `classical_search` (classical.py lines 17-31): the query
is lower-cased, split, and collapsed into a *set* of words; a word counts
toward the title (weight 3) or overview (weight 1) score when it is a member of
the field's whitespace-token set; plus `popularity / 20`. -/
def scoreC (query : String) (m : Movie) : ℚ :=
  let queryWords := (splitWs (toLowerStr query)).dedup
  let titleWords := splitWs (toLowerStr m.title)
  let overviewWords := splitWs (toLowerStr m.overview)
  let titleMatches : ℚ := 3 * ((queryWords.filter (fun w => titleWords.contains w)).length : ℚ)
  let overviewMatches : ℚ := ((queryWords.filter (fun w => overviewWords.contains w)).length : ℚ)
  titleMatches + overviewMatches + m.popularity / 20

/-! ## HeuristicRanker: `classical_search` -/

/-- The `for movie in movies` loop of classical.py lines 17-35: carries
`best_match` and `highest_score`, updating on a strictly greater score. -/
def classicalLoop (q : String) : List Movie → Option Movie → ℚ → Option Movie
  | [], best, _ => best
  | m :: ms, best, hi =>
    if scoreC q m > hi then classicalLoop q ms (some m) (scoreC q m)
    else classicalLoop q ms best hi

/-- classical.py `classical_search`: returns `none` on an empty list, else the
id of the first strictly-best candidate (fallback `movies[0]['id']` when the
loop never improved on the initial `-1`). -/
def classical_search (movies : List Movie) (query : String) : Option Int :=
  match movies with
  | [] => none
  | m0 :: _ =>
    match classicalLoop query movies none (-1) with
    | some m => some m.id
    | none => some m0.id

def idxOfMaxAux : List ℚ → ℚ → Nat → Nat → Nat
  | [], _, _, best => best
  | x :: xs, cur, i, best =>
    if x > cur then idxOfMaxAux xs x (i + 1) i
    else idxOfMaxAux xs cur (i + 1) best

/-- Index of the first occurrence of the maximum of a list (`0` on `[]`). -/
def idxOfMax : List ℚ → Nat
  | [] => 0
  | x :: xs => idxOfMaxAux xs x 1 0

/-- The rescaling loop of grover.py lines 53-55: multiply every entry except
the one at position `m` by `rf`. -/
def scaleOthers (rf : ℚ) : Nat → List ℚ → List ℚ
  | _, [] => []
  | 0, x :: xs => x :: xs.map (fun y => rf * y)
  | m + 1, x :: xs => rf * x :: scaleOthers rf m xs

/-- grover.py lines 51-55: with `other_sum = sum(v1) - v1[m]`, rescale the
non-`m` entries by `(1 - v1[m]) / other_sum` when `other_sum > 0`, else leave
the vector unchanged. -/
def amplifyRescale (m : Nat) (v1 : List ℚ) : List ℚ :=
  if 0 < v1.sum - v1.getD m 0 then
    scaleOthers ((1 - v1.getD m 0) / (v1.sum - v1.getD m 0)) m v1
  else v1

/-- One iteration of the amplification loop (grover.py lines 45-55):
`amplified_probs[max_idx] *= 1.5`, then the conditional rescaling. -/
def amplifyStep (m : Nat) (v : List ℚ) : List ℚ :=
  amplifyRescale m (v.set m ((3 / 2) * v.getD m 0))

/-- The `for _ in range(iterations)` loop applying `amplifyStep` with the fixed target
index `m` (grover.py computes `max_idx` once, before the loop). -/
def iterAmplify (m : Nat) : Nat → List ℚ → List ℚ
  | 0, v => v
  | k + 1, v => iterAmplify m k (amplifyStep m v)

/-- The base score list of grover.py lines 18-30. -/
def baseScores (movies : List Movie) (query : String) : List ℚ :=
  movies.map (scoreQ query)

/-- grover.py lines 32-34: `total = sum(scores) or 1`, then
`probabilities = [score/total for score in scores]`. -/
def baseProbs (movies : List Movie) (query : String) : List ℚ :=
  let scores := baseScores movies query
  let total := if scores.sum = 0 then 1 else scores.sum
  scores.map (fun s => s / total)

/-- The final probability vector after `int(math.sqrt(n))` amplification
iterations targeting the first maximum of the base distribution
(grover.py lines 36-55). -/
def amplifiedProbs (movies : List Movie) (query : String) : List ℚ :=
  let probs := baseProbs movies query
  iterAmplify (idxOfMax probs) (Nat.sqrt movies.length) probs

/-- Abstraction of the process random state: `choicesIdx` resolves the
`random.choices` draw (grover.py line 58), `anomaly` the `random.random() <
0.05` test (line 61), and `choiceIdx` the `random.choice` draw (line 66).
Quantifying over `RandSource` expresses "for every choice of randomness". -/
structure RandSource where
  choicesIdx : List ℚ → Nat
  anomaly : Bool
  choiceIdx : List Nat → Nat

/-- Model of `random.choices(range(len(weights)), weights=weights, k=1)[0]`:
raises `ValueError` (modelled as `none`) when the weight total is not positive,
otherwise returns an index in `[0, len-1]` (the `bisect` call is clamped to
`hi = len - 1`, so every random draw lands in range). -/
def choicesModel (g : RandSource) (weights : List ℚ) : Option Nat :=
  if weights.sum ≤ 0 then none
  else some (min (g.choicesIdx weights) (weights.length - 1))

/-- grover.py `quantum_search`. Returns `some none` for an empty candidate
list (Python `None`), `some (some id)` for a normal selection, and `none`
when the sampling raises. The anomaly branch (lines 61-67) removes the chosen
index from `range(n)` and, when alternatives remain, picks one of them. -/
def quantum_search (g : RandSource) (movies : List Movie) (query : String) :
    Option (Option Int) :=
  match movies with
  | [] => some none
  | _ :: _ =>
    let amplified := amplifiedProbs movies query
    match choicesModel g amplified with
    | none => none
    | some chosen =>
      let finalIdx :=
        if g.anomaly then
          let available := (List.range movies.length).erase chosen
          if available.isEmpty then chosen
          else available.getD (g.choiceIdx available % available.length) 0
        else chosen
      some (some ((movies.getD finalIdx dMovie).id))

/-- A second invocation of `classical_search` in a process whose ambient
random state is `g`: the source function never reads that state, which this
definition makes explicit by discarding `g`. -/
def classicalRun (_g : RandSource) (movies : List Movie) (query : String) :
    Option Int :=
  classical_search movies query

/-- A concrete random source (used only to instantiate witnesses). -/
def gZero : RandSource := ⟨fun _ => 0, false, fun _ => 0⟩

/-- The list `movies` with candidate `i`'s popularity raised by `d`, all other fields
and candidates unchanged. -/
def bumpPop (movies : List Movie) (i : Nat) (d : ℚ) : List Movie :=
  movies.set i
    { movies.getD i dMovie with popularity := (movies.getD i dMovie).popularity + d }

/-! ## Sanity checks of the embedding on concrete inputs -/

example : splitWs "  matrix   hacker " = ["matrix", "hacker"] := by decide
example : toLowerStr "The Matrix" = "the matrix" := by decide
example : substrB "mat" "the matrix" = true := by decide
example : substrB "mat" "" = false := by decide
example : substrB "" "abc" = true := by decide
example : scoreC "matrix hacker"
    ⟨1, "The Matrix", "A hacker discovers reality is simulated", 80⟩ = 8 := by
  with_unfolding_all decide
example : scoreC "matrix hacker" ⟨2, "Matrix Reloaded", "Neo fights machines", 40⟩ = 5 := by
  with_unfolding_all decide
example : scoreQ "mat" ⟨1, "The Matrix", "", 0⟩ = 3 := by with_unfolding_all decide
example : classical_search
    [⟨1, "The Matrix", "A hacker discovers reality is simulated", 80⟩,
     ⟨2, "Matrix Reloaded", "Neo fights machines", 40⟩] "matrix hacker" = some 1 := by
  with_unfolding_all decide

/-! ## AmplifiedRanker: `quantum_search` -/

/-- Helper for `idxOfMax`: running first-maximum index. Mirrors Python
`probabilities.index(max(probabilities))`: the value tracked is only replaced
on a strictly greater element, so the earliest maximum's index is kept. -/

example : idxOfMax [1/4, 3/4] = 1 := by with_unfolding_all decide
example : amplifiedProbs [⟨1, "a", "", 60⟩, ⟨2, "b", "", 20⟩] "" = [9/8, -1/8] := by
  with_unfolding_all decide
example : amplifiedProbs [⟨1, "a", "", 20⟩] "" = [3/2] := by with_unfolding_all decide
example : amplifiedProbs [⟨1, "a", "", 0⟩] "z" = [0] := by with_unfolding_all decide
example : ∀ g : RandSource, quantum_search g [⟨1, "a", "", 0⟩] "z" = none := fun g => by
  with_unfolding_all rfl

/-! ## Claim theorems -/

/-- Claim C1 (code_bug evaluation): on a single candidate with zero title and
overview overlap and zero popularity, every base score is 0; `total = sum or 1`
avoids the division by zero, but the probability vector is then all zeros, and
`random.choices` raises `ValueError` on a non-positive weight total (modelled
as the `none` outcome) for every random source — the call does not return a
valid id, contradicting the claim. -/
theorem quantum_search_all_zero_scores_raises :
    ∀ g : RandSource, quantum_search g [⟨1, "a", "", 0⟩] "z" = none := fun g => by
  with_unfolding_all rfl

/-- Claim C2 (counterexample): the two score computations are not the same
function. With query `"mat"` the quantum scorer counts a substring hit on
title `"The Matrix"` (score 3) while the classical scorer's whole-token
intersection scores 0; with query `"x x"` the quantum scorer counts the
duplicated term twice (score 6) while the classical scorer collapses the
duplicates (score 3). -/
theorem score_vectors_differ_cx :
    ([⟨1, "The Matrix", "", 0⟩] : List Movie).map (scoreQ "mat")
        ≠ [⟨1, "The Matrix", "", 0⟩].map (scoreC "mat")
  ∧ ([⟨2, "x", "", 0⟩] : List Movie).map (scoreQ "x x")
        ≠ [⟨2, "x", "", 0⟩].map (scoreC "x x") := by
  constructor
  · with_unfolding_all decide
  · with_unfolding_all decide

/-- Claim C3 (counterexample): on a single positive-score candidate the single
amplification iteration (`iterations = floor(sqrt 1) = 1`) multiplies the lone
probability `1` by `1.5` and skips rescaling (`other_sum = 0`), so after that
iteration the vector sums to `3/2`: not `1` exactly, and off by far more than
the `1e-9` tolerance. -/
theorem amplified_sum_ne_one_cx :
    (amplifiedProbs [⟨1, "a", "", 20⟩] "").sum ≠ 1
  ∧ 1 + 1 / 1000000000 < (amplifiedProbs [⟨1, "a", "", 20⟩] "").sum := by
  constructor
  · with_unfolding_all decide
  · with_unfolding_all decide

/-- Claim C5: on an empty candidate list both rankers return the "no
selection" sentinel (Python `None`) without raising, for every query and
every random source. -/
theorem empty_candidates_no_selection :
    (∀ query : String, classical_search [] query = none)
  ∧ (∀ (g : RandSource) (query : String), quantum_search g [] query = some none) :=
  ⟨fun _ => rfl, fun _ _ => rfl⟩

/-- Claim C6: on the spec's end-to-end example `classical_search` returns id 1,
with computed scores 8 (= 3 + 1 + 80/20) and 5 (= 3 + 40/20). -/
theorem end_to_end_example_heuristic :
    classical_search
        [⟨1, "The Matrix", "A hacker discovers reality is simulated", 80⟩,
         ⟨2, "Matrix Reloaded", "Neo fights machines", 40⟩] "matrix hacker" = some 1
  ∧ scoreC "matrix hacker" ⟨1, "The Matrix", "A hacker discovers reality is simulated", 80⟩ = 8
  ∧ scoreC "matrix hacker" ⟨2, "Matrix Reloaded", "Neo fights machines", 40⟩ = 5 := by
  refine ⟨?_, ?_, ?_⟩
  · with_unfolding_all decide
  · with_unfolding_all decide
  · with_unfolding_all decide

/-- Claim C8: `classical_search` is deterministic — its result depends only on
the candidate list and the query. The ambient random state `g` is threaded
explicitly through `classicalRun` and provably never influences the result:
two invocations under arbitrary different random states agree. -/
theorem classical_search_deterministic :
    ∀ (g g' : RandSource) (movies : List Movie) (query : String),
      classicalRun g movies query = classicalRun g' movies query :=
  fun _ _ _ _ => rfl

/-- Claim C10: there is an input (one dominant candidate, base probability
3/4 > 2/3) on which the amplification loop drives the leading probability to
9/8 > 1, so the rescaling factor is negative and the resulting vector has a
strictly negative entry: non-negativity is not an invariant of the loop. -/
theorem amplified_probs_negative_entry :
    ∃ (movies : List Movie) (query : String),
      2 ≤ movies.length
      ∧ 2 / 3 < (baseProbs movies query).getD 0 0
      ∧ 1 < (amplifiedProbs movies query).getD 0 0
      ∧ (amplifiedProbs movies query).getD 1 0 < 0 :=
  ⟨[⟨1, "a", "", 60⟩, ⟨2, "b", "", 20⟩], "", by with_unfolding_all decide⟩

/-! ## Generic list lemmas used below -/

theorem sum_map_mul (rf : ℚ) (l : List ℚ) :
    (l.map (fun y => rf * y)).sum = rf * l.sum := by
  induction l with
  | nil => simp
  | cons x xs ih => simp [ih]; ring

theorem scaleOthers_sum (rf : ℚ) : ∀ (m : Nat) (v : List ℚ),
    (scaleOthers rf m v).sum = rf * (v.sum - v.getD m 0) + v.getD m 0 := by
  intro m v
  induction v generalizing m with
  | nil => simp [scaleOthers]
  | cons x xs ih =>
    cases m with
    | zero => simp [scaleOthers, sum_map_mul]; ring
    | succ k => simp [scaleOthers, ih k, List.getD_cons_succ]; ring

theorem scaleOthers_length (rf : ℚ) : ∀ (m : Nat) (v : List ℚ),
    (scaleOthers rf m v).length = v.length := by
  intro m v
  induction v generalizing m with
  | nil => simp [scaleOthers]
  | cons x xs ih => cases m with
    | zero => simp [scaleOthers]
    | succ k => simp [scaleOthers, ih k]

theorem amplifyRescale_length (m : Nat) (v1 : List ℚ) :
    (amplifyRescale m v1).length = v1.length := by
  unfold amplifyRescale
  split
  · exact scaleOthers_length _ _ _
  · rfl

theorem amplifyStep_length (m : Nat) (v : List ℚ) :
    (amplifyStep m v).length = v.length := by
  unfold amplifyStep
  rw [amplifyRescale_length, List.length_set]

theorem iterAmplify_length (m : Nat) : ∀ (k : Nat) (v : List ℚ),
    (iterAmplify m k v).length = v.length := by
  intro k
  induction k with
  | zero => intro v; rfl
  | succ n ih => intro v; rw [iterAmplify, ih, amplifyStep_length]

theorem amplifiedProbs_length (movies : List Movie) (query : String) :
    (amplifiedProbs movies query).length = movies.length := by
  unfold amplifiedProbs baseProbs baseScores
  rw [iterAmplify_length]
  simp

/-- Whenever the rescaling branch runs, it re-establishes total mass exactly 1,
whatever the incoming total was. -/
theorem amplifyRescale_sum (m : Nat) (v1 : List ℚ) (h : 0 < v1.sum - v1.getD m 0) :
    (amplifyRescale m v1).sum = 1 := by
  unfold amplifyRescale
  rw [if_pos h, scaleOthers_sum, div_mul_cancel₀ _ (ne_of_gt h)]
  ring

/-- Claim C3 (amended): after every amplification iteration in which the
rescaling step actually runs — i.e. in which `other_sum`, computed after the
`*= 1.5` update, is positive — the probability vector sums to exactly 1 under
exact rational arithmetic. (The original claim fails in the iterations where
rescaling is skipped; see the counterexample.) -/
theorem amplifyStep_sum_eq_one_of_rescale (m : Nat) (v : List ℚ)
    (h : 0 < (v.set m ((3 / 2) * v.getD m 0)).sum
        - (v.set m ((3 / 2) * v.getD m 0)).getD m 0) :
    (amplifyStep m v).sum = 1 :=
  amplifyRescale_sum m _ h

/-- Witness for the amended C3 theorem at `v = [1/2, 1/2]`, `m = 0`. -/
theorem amplifyStep_sum_eq_one_witness :
    (0 < (([1/2, 1/2] : List ℚ).set 0 ((3 / 2) * ([1/2, 1/2] : List ℚ).getD 0 0)).sum
        - (([1/2, 1/2] : List ℚ).set 0 ((3 / 2) * ([1/2, 1/2] : List ℚ).getD 0 0)).getD 0 0)
  ∧ (amplifyStep 0 [1/2, 1/2]).sum = 1 :=
  ⟨by with_unfolding_all decide,
   amplifyStep_sum_eq_one_of_rescale 0 [1/2, 1/2] (by with_unfolding_all decide)⟩

/-- Claim C2 (amended): the two scorers agree on the popularity term and the
3/1 weights, and the per-candidate score vectors coincide exactly on inputs
where the divergent parts cannot bite: when the lower-cased query splits into
a duplicate-free term list, and for every candidate each query term occurs as
a substring of the lower-cased title (resp. overview) precisely when it occurs
in that field's whitespace-token set. In general the scorers differ (see the
counterexample), so they are not one shared function. -/
theorem score_vectors_agree_of_token_semantics (query : String) (movies : List Movie)
    (hnd : (splitWs (toLowerStr query)).Nodup)
    (hsem : ∀ m ∈ movies, ∀ t ∈ splitWs (toLowerStr query),
        substrB t (toLowerStr m.title) = (splitWs (toLowerStr m.title)).contains t
      ∧ substrB t (toLowerStr m.overview) = (splitWs (toLowerStr m.overview)).contains t) :
    movies.map (scoreQ query) = movies.map (scoreC query) := by
  apply List.map_congr_left
  intro m hm
  simp only [scoreQ, scoreC]
  rw [List.dedup_eq_self.mpr hnd]
  rw [List.filter_congr (fun t ht => (hsem m hm t ht).1),
      List.filter_congr (fun t ht => (hsem m hm t ht).2)]

/-- Witness for the amended C2 theorem on the spec's end-to-end example input,
whose query terms are duplicate-free and match as substrings exactly when they
match as whole tokens. -/
theorem score_vectors_agree_witness :
    ((splitWs (toLowerStr "matrix hacker")).Nodup
  ∧ (∀ m ∈ ([⟨1, "The Matrix", "A hacker discovers reality is simulated", 80⟩,
             ⟨2, "Matrix Reloaded", "Neo fights machines", 40⟩] : List Movie),
       ∀ t ∈ splitWs (toLowerStr "matrix hacker"),
        substrB t (toLowerStr m.title) = (splitWs (toLowerStr m.title)).contains t
      ∧ substrB t (toLowerStr m.overview) = (splitWs (toLowerStr m.overview)).contains t)
  ∧ ([⟨1, "The Matrix", "A hacker discovers reality is simulated", 80⟩,
      ⟨2, "Matrix Reloaded", "Neo fights machines", 40⟩] : List Movie).map (scoreQ "matrix hacker")
    = [⟨1, "The Matrix", "A hacker discovers reality is simulated", 80⟩,
       ⟨2, "Matrix Reloaded", "Neo fights machines", 40⟩].map (scoreC "matrix hacker")) :=
  ⟨by decide, by decide,
   score_vectors_agree_of_token_semantics "matrix hacker"
     [⟨1, "The Matrix", "A hacker discovers reality is simulated", 80⟩,
      ⟨2, "Matrix Reloaded", "Neo fights machines", 40⟩] (by decide) (by decide)⟩

/-- Claim C4 (code_bug evaluation): on a single candidate the code returns
that candidate's id for every random source *as long as the sampling weight
total is positive* (first conjunct: the anomaly branch is then a genuine
no-op, since `range(1)` minus the chosen index is empty); but on a single
candidate with zero score — a legal input per the claim's "for every query" —
`random.choices` receives the all-zero weight vector and raises (second
conjunct), while `classical_search` does return the id (third conjunct). -/
theorem single_candidate_divergence :
    (∀ (g : RandSource) (m : Movie) (query : String),
        0 < (amplifiedProbs [m] query).sum →
        quantum_search g [m] query = some (some m.id))
  ∧ (∀ g : RandSource, quantum_search g [⟨7, "b", "", 0⟩] "q" = none)
  ∧ classical_search [⟨7, "b", "", 0⟩] "q" = some 7 := by
  refine ⟨?_, fun g => by with_unfolding_all rfl, by with_unfolding_all decide⟩
  intro g m query h
  have hlen : (amplifiedProbs [m] query).length = 1 := amplifiedProbs_length [m] query
  simp only [quantum_search, choicesModel, if_neg (not_le.mpr h), hlen]
  have hr1 : List.range 1 = [0] := rfl
  cases hg : g.anomaly <;> simp [hg, hr1]

/-- Witness for the conditional conjunct of the C4 evaluation theorem at a
single positive-score candidate and the concrete random source `gZero`. -/
theorem single_candidate_divergence_witness :
    0 < (amplifiedProbs [⟨3, "a", "", 20⟩] "a").sum
  ∧ quantum_search gZero [⟨3, "a", "", 20⟩] "a" = some (some 3) :=
  ⟨by with_unfolding_all decide,
   single_candidate_divergence.1 gZero ⟨3, "a", "", 20⟩ "a" (by with_unfolding_all decide)⟩

/-! ## Popularity monotonicity (C9) -/

theorem scoreC_popularity_add (q : String) (m : Movie) (d : ℚ) :
    scoreC q { m with popularity := m.popularity + d } = scoreC q m + d / 20 := by
  simp only [scoreC]
  ring

theorem scoreQ_popularity_add (q : String) (m : Movie) (d : ℚ) :
    scoreQ q { m with popularity := m.popularity + d } = scoreQ q m + d / 20 := by
  simp only [scoreQ]
  ring

theorem getD_set_self {α : Type} {l : List α} {i : Nat} (h : i < l.length) (a d : α) :
    (l.set i a).getD i d = a := by
  induction l generalizing i with
  | nil => simp at h
  | cons x xs ih =>
    cases i with
    | zero => rfl
    | succ j =>
      simp only [List.set_cons_succ, List.getD_cons_succ]
      exact ih (Nat.lt_of_succ_lt_succ h) 

theorem getD_set_ne {α : Type} {l : List α} {i j : Nat} (h : j ≠ i) (a d : α) :
    (l.set i a).getD j d = l.getD j d := by
  induction l generalizing i j with
  | nil => rfl
  | cons x xs ih =>
    cases i with
    | zero =>
      cases j with
      | zero => exact absurd rfl h
      | succ k => rfl
    | succ i' =>
      cases j with
      | zero => rfl
      | succ k =>
        simp only [List.set_cons_succ, List.getD_cons_succ]
        exact ih (fun hk => h (congrArg Nat.succ hk))

theorem getD_map_score (f : Movie → ℚ) {l : List Movie} {i : Nat} (h : i < l.length) :
    (l.map f).getD i 0 = f (l.getD i dMovie) := by
  induction l generalizing i with
  | nil => simp at h
  | cons x xs ih =>
    cases i with
    | zero => rfl
    | succ j =>
      simp only [List.map_cons, List.getD_cons_succ]
      exact ih (Nat.lt_of_succ_lt_succ h)

theorem getD_default_of_le {α : Type} {l : List α} {i : Nat} (h : l.length ≤ i) (d : α) :
    l.getD i d = d := by
  induction l generalizing i with
  | nil => cases i <;> rfl
  | cons x xs ih =>
    cases i with
    | zero => simp at h
    | succ j => exact ih (Nat.le_of_succ_le_succ h) 

theorem set_of_length_le {α : Type} {l : List α} {i : Nat} (h : l.length ≤ i) (a : α) :
    l.set i a = l := by
  induction l generalizing i with
  | nil => rfl
  | cons x xs ih =>
    cases i with
    | zero => simp at h
    | succ j => simp only [List.set_cons_succ]; rw [ih (Nat.le_of_succ_le_succ h)]

/-- Claim C9: raising candidate `i`'s popularity by `d ≥ 0` while holding its
title, overview, and every other candidate fixed never decreases candidate
`i`'s score in either scorer (first two conjuncts), and leaves every other
candidate's score unchanged (third conjunct), so its score relative to the
unchanged candidates never decreases. -/
theorem score_popularity_monotone (query : String) (movies : List Movie) (i : Nat) (d : ℚ)
    (hd : 0 ≤ d) :
    ((movies.map (scoreC query)).getD i 0 ≤ ((bumpPop movies i d).map (scoreC query)).getD i 0)
  ∧ ((movies.map (scoreQ query)).getD i 0 ≤ ((bumpPop movies i d).map (scoreQ query)).getD i 0)
  ∧ (∀ j, j ≠ i →
      ((bumpPop movies i d).map (scoreC query)).getD j 0 = (movies.map (scoreC query)).getD j 0
    ∧ ((bumpPop movies i d).map (scoreQ query)).getD j 0 = (movies.map (scoreQ query)).getD j 0) := by
  by_cases hi : i < movies.length
  · have hb : (bumpPop movies i d).length = movies.length := List.length_set _ _ _
    have hgi : (bumpPop movies i d).getD i dMovie =
        { movies.getD i dMovie with popularity := (movies.getD i dMovie).popularity + d } :=
      getD_set_self hi _ _
    have hd20 : 0 ≤ d / 20 := by positivity
    refine ⟨?_, ?_, ?_⟩
    · rw [getD_map_score _ hi, getD_map_score _ (by rw [hb]; exact hi), hgi,
        scoreC_popularity_add]
      linarith
    · rw [getD_map_score _ hi, getD_map_score _ (by rw [hb]; exact hi), hgi,
        scoreQ_popularity_add]
      linarith
    · intro j hj
      have hset : (bumpPop movies i d).getD j dMovie = movies.getD j dMovie :=
        getD_set_ne hj _ _
      by_cases hjlen : j < movies.length
      · constructor
        · rw [getD_map_score _ (by rw [hb]; exact hjlen), getD_map_score _ hjlen, hset]
        · rw [getD_map_score _ (by rw [hb]; exact hjlen), getD_map_score _ hjlen, hset]
      · constructor
        · rw [getD_default_of_le (by rw [List.length_map, hb]; exact Nat.le_of_not_lt hjlen) (0 : ℚ),
            getD_default_of_le (by rw [List.length_map]; exact Nat.le_of_not_lt hjlen) (0 : ℚ)]
        · rw [getD_default_of_le (by rw [List.length_map, hb]; exact Nat.le_of_not_lt hjlen) (0 : ℚ),
            getD_default_of_le (by rw [List.length_map]; exact Nat.le_of_not_lt hjlen) (0 : ℚ)]
  · have hnoop : bumpPop movies i d = movies :=
      set_of_length_le (Nat.le_of_not_lt hi) _
    rw [hnoop]
    exact ⟨le_refl _, le_refl _, fun j _ => ⟨rfl, rfl⟩⟩

/-- Witness for C9 at a single candidate, `i = 0`, `d = 1`. -/
theorem score_popularity_monotone_witness :
    (0 : ℚ) ≤ 1
  ∧ (((([⟨1, "a", "", 0⟩] : List Movie)).map (scoreC "a")).getD 0 0
       ≤ ((bumpPop [⟨1, "a", "", 0⟩] 0 1).map (scoreC "a")).getD 0 0
    ∧ ((([⟨1, "a", "", 0⟩] : List Movie)).map (scoreQ "a")).getD 0 0
       ≤ ((bumpPop [⟨1, "a", "", 0⟩] 0 1).map (scoreQ "a")).getD 0 0
    ∧ ∀ j, j ≠ 0 →
        ((bumpPop [⟨1, "a", "", 0⟩] 0 1).map (scoreC "a")).getD j 0
          = ((([⟨1, "a", "", 0⟩] : List Movie)).map (scoreC "a")).getD j 0
      ∧ ((bumpPop [⟨1, "a", "", 0⟩] 0 1).map (scoreQ "a")).getD j 0
          = ((([⟨1, "a", "", 0⟩] : List Movie)).map (scoreQ "a")).getD j 0) :=
  ⟨by norm_num, score_popularity_monotone "a" [⟨1, "a", "", 0⟩] 0 1 (by norm_num)⟩

/-! ## First-maximum selection (C7) -/

theorem getD_of_drop_cons {α : Type} {full : List α} {i : Nat} {m : α} {ms : List α} (d : α)
    (h : full.drop i = m :: ms) : full.getD i d = m := by
  induction full generalizing i with
  | nil => simp at h
  | cons x xs ih =>
    cases i with
    | zero =>
      rw [List.drop_zero] at h
      rw [List.getD_cons_zero, (List.cons_eq_cons.mp h).1]
    | succ j =>
      rw [List.drop_succ_cons] at h
      rw [List.getD_cons_succ]
      exact ih h

theorem drop_cons_of_drop {α : Type} {full : List α} {i : Nat} {m : α} {ms : List α}
    (h : full.drop i = m :: ms) : full.drop (i + 1) = ms := by
  induction full generalizing i with
  | nil => simp at h
  | cons x xs ih =>
    cases i with
    | zero =>
      rw [List.drop_zero] at h
      rw [List.drop_succ_cons, (List.cons_eq_cons.mp h).2, List.drop_zero]
    | succ j =>
      rw [List.drop_succ_cons] at h
      rw [List.drop_succ_cons]
      exact ih h

/-- Scores are non-negative for data-model-conforming candidates (popularity
is specified non-negative), so every score beats the loop's initial `-1`. -/
theorem scoreC_nonneg (q : String) (m : Movie) (h : 0 ≤ m.popularity) :
    0 ≤ scoreC q m := by
  unfold scoreC
  have h1 : (0 : ℚ) ≤ 3 * (((splitWs (toLowerStr q)).dedup.filter
      (fun w => (splitWs (toLowerStr m.title)).contains w)).length : ℚ) := by positivity
  have h2 : (0 : ℚ) ≤ (((splitWs (toLowerStr q)).dedup.filter
      (fun w => (splitWs (toLowerStr m.overview)).contains w)).length : ℚ) := by positivity
  have h3 : (0 : ℚ) ≤ m.popularity / 20 := by
    apply div_nonneg h
    norm_num
  linarith

/-- The selection loop with current best `cur` (at score `scoreC q cur`, held
at index `best` of the full list) selects exactly the candidate at the index
that `idxOfMaxAux` computes over the remaining scores: both update only on a
strictly greater score, so the earliest maximum wins. -/
theorem classicalLoop_eq_idxOfMaxAux (q : String) (d : Movie) :
    ∀ (ms : List Movie) (full : List Movie) (cur : Movie) (i best : Nat),
      full.drop i = ms → full.getD best d = cur →
      classicalLoop q ms (some cur) (scoreC q cur) =
        some (full.getD (idxOfMaxAux (ms.map (scoreC q)) (scoreC q cur) i best) d) := by
  intro ms
  induction ms with
  | nil =>
    intro full cur i best _ h2
    simp only [classicalLoop, List.map_nil, idxOfMaxAux, h2]
  | cons m ms' ih =>
    intro full cur i best h1 h2
    simp only [classicalLoop, List.map_cons, idxOfMaxAux]
    by_cases hgt : scoreC q m > scoreC q cur
    · rw [if_pos hgt, if_pos hgt]
      exact ih full m (i + 1) i (drop_cons_of_drop h1) (getD_of_drop_cons d h1)
    · rw [if_neg hgt, if_neg hgt]
      exact ih full cur (i + 1) best (drop_cons_of_drop h1) h2

/-- Claim C7: on a non-empty list of data-model-conforming candidates
(non-negative popularity) in which at least two candidates attain the maximum
score, `classical_search` returns the id of the candidate at the *first* index
attaining the maximum (`idxOfMax` tracks the first strict maximum, exactly as
the loop does). -/
theorem classical_search_first_max (movies : List Movie) (query : String)
    (hne : movies ≠ [])
    (hpop : ∀ m ∈ movies, 0 ≤ m.popularity)
    (htie : 2 ≤ (movies.map (scoreC query)).count
        ((movies.map (scoreC query)).getD (idxOfMax (movies.map (scoreC query))) 0)) :
    classical_search movies query =
      some ((movies.getD (idxOfMax (movies.map (scoreC query))) dMovie).id) := by
  cases movies with
  | nil => exact absurd rfl hne
  | cons m0 rest =>
    have h0 : scoreC query m0 > -1 :=
      lt_of_lt_of_le (by norm_num) (scoreC_nonneg query m0 (hpop m0 (by simp)))
    have hloop : classicalLoop query (m0 :: rest) none (-1)
        = some ((m0 :: rest).getD
            (idxOfMaxAux (rest.map (scoreC query)) (scoreC query m0) 1 0) dMovie) := by
      simp only [classicalLoop]
      rw [if_pos h0]
      exact classicalLoop_eq_idxOfMaxAux query dMovie rest (m0 :: rest) m0 1 0 rfl rfl
    have hcs : classical_search (m0 :: rest) query =
        (match classicalLoop query (m0 :: rest) none (-1) with
         | some m => some m.id
         | none => some m0.id) := rfl
    rw [hcs, hloop]
    simp only [List.map_cons, idxOfMax]

/-- Witness for C7: two candidates tied at score 3; the first one's id wins. -/
theorem classical_search_first_max_witness :
    ([⟨1, "x", "", 0⟩, ⟨2, "x", "", 0⟩] : List Movie) ≠ []
  ∧ (∀ m ∈ ([⟨1, "x", "", 0⟩, ⟨2, "x", "", 0⟩] : List Movie), 0 ≤ m.popularity)
  ∧ 2 ≤ (([⟨1, "x", "", 0⟩, ⟨2, "x", "", 0⟩] : List Movie).map (scoreC "x")).count
        ((([⟨1, "x", "", 0⟩, ⟨2, "x", "", 0⟩] : List Movie).map (scoreC "x")).getD
          (idxOfMax (([⟨1, "x", "", 0⟩, ⟨2, "x", "", 0⟩] : List Movie).map (scoreC "x"))) 0)
  ∧ classical_search [⟨1, "x", "", 0⟩, ⟨2, "x", "", 0⟩] "x" = some 1 := by
  refine ⟨by decide, by with_unfolding_all decide, by with_unfolding_all decide, ?_⟩
  rw [classical_search_first_max [⟨1, "x", "", 0⟩, ⟨2, "x", "", 0⟩] "x" (by decide)
    (by with_unfolding_all decide) (by with_unfolding_all decide)]
  with_unfolding_all decide
